import Mathlib

/-!
Shallow embedding of the MediRemind application (src/app.py, src/pa.py):
a JSON document store for medications and appointments, per-record
validators, a next-reminder calculation, calendar generation with
recurrence rules, and an import/export page.

JSON numbers are modelled as integers (the UI's number inputs and the
document shape produce integer fields); the serializer follows
`json.dump(..., indent=4)` and the parser `json.loads` restricted
accordingly.
-/

set_option maxHeartbeats 1000000

namespace MediRemind

/- JSON values, as a mutual inductive so that structural recursion and
induction over arrays and objects is direct. -/
mutual
inductive Json : Type where
  | null : Json
  | bool : Bool → Json
  | num : Int → Json
  | str : String → Json
  | arr : JsonList → Json
  | obj : JsonObj → Json

inductive JsonList : Type where
  | nil : JsonList
  | cons : Json → JsonList → JsonList

inductive JsonObj : Type where
  | nil : JsonObj
  | cons : String → Json → JsonObj → JsonObj
end

/- Structural size of a JSON value (each node counts one). -/
mutual
def Json.nodes : Json → Nat
  | .null => 1
  | .bool _ => 1
  | .num _ => 1
  | .str _ => 1
  | .arr xs => 1 + xs.nodes
  | .obj ms => 1 + ms.nodes

def JsonList.nodes : JsonList → Nat
  | .nil => 0
  | .cons x xs => 1 + x.nodes + xs.nodes

def JsonObj.nodes : JsonObj → Nat
  | .nil => 0
  | .cons _ v ms => 1 + v.nodes + ms.nodes
end

def lbrace : Char := Char.ofNat 123

def rbrace : Char := Char.ofNat 125

/-- Decimal digit character for a value below ten. -/
def digitChar (d : Nat) : Char := Char.ofNat (48 + d)

/-- Decimal digits of a natural number, most significant first. -/
def natChars (n : Nat) : List Char :=
  if _h : n < 10 then [digitChar n]
  else natChars (n / 10) ++ [digitChar (n % 10)]
decreasing_by exact Nat.div_lt_self (by omega) (by omega)

/-- Decimal rendering of an integer, as Python `json.dump` prints it. -/
def intChars (n : Int) : List Char :=
  if n < 0 then '-' :: natChars n.natAbs else natChars n.natAbs

/-- JSON string escaping for one character (quote, backslash and the
common control characters; other characters are kept literally). -/
def escapeChar (c : Char) : List Char :=
  if c = '"' then ['\\', '"']
  else if c = '\\' then ['\\', '\\']
  else if c = '\n' then ['\\', 'n']
  else if c = '\t' then ['\\', 't']
  else if c = '\r' then ['\\', 'r']
  else [c]

def escapeChars : List Char → List Char
  | [] => []
  | c :: cs => escapeChar c ++ escapeChars cs

/-- A JSON string literal: quote, escaped body, quote. -/
def quoteChars (s : String) : List Char := '"' :: (escapeChars s.toList ++ ['"'])

/-- Indentation prefix used by `json.dump(..., indent=4)`. -/
def indentChars (level : Nat) : List Char := List.replicate (4 * level) ' '

/- Serializer following Python `json.dump(data, f, indent=4)`:
items on their own lines, four spaces per nesting level, `": "` after
keys, empty containers printed inline. -/
def kwNull : List Char := ['n', 'u', 'l', 'l']

def kwTrue : List Char := ['t', 'r', 'u', 'e']

def kwFalse : List Char := ['f', 'a', 'l', 's', 'e']

mutual
def dumpVal (level : Nat) : Json → List Char
  | .null => kwNull
  | .bool true => kwTrue
  | .bool false => kwFalse
  | .num n => intChars n
  | .str s => quoteChars s
  | .arr .nil => ['[', ']']
  | .arr (.cons x xs) =>
      '[' :: '\n' :: (indentChars (level + 1) ++ dumpVal (level + 1) x
        ++ dumpItems (level + 1) xs ++ '\n' :: (indentChars level ++ [']']))
  | .obj .nil => [lbrace, rbrace]
  | .obj (.cons k v ms) =>
      lbrace :: '\n' :: (indentChars (level + 1) ++ quoteChars k
        ++ ':' :: ' ' :: (dumpVal (level + 1) v)
        ++ dumpMembers (level + 1) ms ++ '\n' :: (indentChars level ++ [rbrace]))

def dumpItems (level : Nat) : JsonList → List Char
  | .nil => []
  | .cons x xs =>
      ',' :: '\n' :: (indentChars level ++ dumpVal level x ++ dumpItems level xs)

def dumpMembers (level : Nat) : JsonObj → List Char
  | .nil => []
  | .cons k v ms =>
      ',' :: '\n' :: (indentChars level ++ quoteChars k
        ++ ':' :: ' ' :: (dumpVal level v) ++ dumpMembers level ms)
end

/-- Rendering of the whole document, as `json.dump(data, f, indent=4)`. -/
def dumps (j : Json) : String := String.mk (dumpVal 0 j)

/-- JSON whitespace. -/
def isWsChar (c : Char) : Bool := c = ' ' || c = '\n' || c = '\t' || c = '\r'

def skipWs : List Char → List Char
  | [] => []
  | c :: cs => if isWsChar c then skipWs cs else c :: cs

/-- Inverse of `escapeChar` on the character after a backslash. -/
def unescapeChar (e : Char) : Option Char :=
  if e = '"' then some '"'
  else if e = '\\' then some '\\'
  else if e = 'n' then some '\n'
  else if e = 't' then some '\t'
  else if e = 'r' then some '\r'
  else none

/-- Body of a JSON string literal after the opening quote: returns the
unescaped content and the remainder after the closing quote. -/
def parseStringBody : List Char → Option (List Char × List Char)
  | [] => none
  | c :: cs =>
    if c = '"' then some ([], cs)
    else if c = '\\' then
      match cs with
      | [] => none
      | e :: cs2 =>
        match unescapeChar e with
        | none => none
        | some d =>
          match parseStringBody cs2 with
          | none => none
          | some (content, rest) => some (d :: content, rest)
    else
      match parseStringBody cs with
      | none => none
      | some (content, rest) => some (c :: content, rest)

/-- Longest digit run at the head of the input. -/
def takeDigits : List Char → List Char × List Char
  | [] => ([], [])
  | c :: cs =>
    if c.isDigit then
      let p := takeDigits cs
      (c :: p.1, p.2)
    else ([], c :: cs)

def digitsToNat (cs : List Char) : Nat :=
  cs.foldl (fun a c => a * 10 + (c.toNat - 48)) 0

def parseNum : List Char → Option (Int × List Char)
  | [] => none
  | c :: cs =>
    if c = '-' then
      let p := takeDigits cs
      if p.1 = [] then none else some (-(digitsToNat p.1 : Int), p.2)
    else
      let p := takeDigits (c :: cs)
      if p.1 = [] then none else some ((digitsToNat p.1 : Int), p.2)

/-- True when the input does not begin with a digit, so that a number
just read cannot capture following characters. -/
def numSafe : List Char → Bool
  | [] => true
  | c :: _ => !c.isDigit

/-- Match a literal character sequence, returning what follows it. -/
def stripLit : List Char → List Char → Option (List Char)
  | [], cs => some cs
  | p :: ps, c :: cs => if c = p then stripLit ps cs else none
  | _ :: _, [] => none

/- Recursive-descent JSON reader (model of `json.loads`), with a fuel
argument bounding the recursion depth. -/
mutual
def parseVal : Nat → List Char → Option (Json × List Char)
  | 0, _ => none
  | fuel + 1, input =>
    match skipWs input with
    | [] => none
    | c :: cs =>
      if c = 'n' then
        match stripLit ['u', 'l', 'l'] cs with
        | some rest => some (Json.null, rest)
        | none => none
      else if c = 't' then
        match stripLit ['r', 'u', 'e'] cs with
        | some rest => some (Json.bool true, rest)
        | none => none
      else if c = 'f' then
        match stripLit ['a', 'l', 's', 'e'] cs with
        | some rest => some (Json.bool false, rest)
        | none => none
      else if c = '"' then
        match parseStringBody cs with
        | some (content, rest) => some (Json.str (String.mk content), rest)
        | none => none
      else if c = '[' then
        match skipWs cs with
        | ']' :: rest => some (Json.arr .nil, rest)
        | cs2 =>
          match parseElems fuel cs2 with
          | some (elems, rest) => some (Json.arr elems, rest)
          | none => none
      else if c = lbrace then
        match skipWs cs with
        | [] => none
        | c2 :: rest2 =>
          if c2 = rbrace then some (Json.obj .nil, rest2)
          else
            match parseMembers fuel (c2 :: rest2) with
            | some (ms, rest) => some (Json.obj ms, rest)
            | none => none
      else
        match parseNum (c :: cs) with
        | some (n, rest) => some (Json.num n, rest)
        | none => none

def parseElems : Nat → List Char → Option (JsonList × List Char)
  | 0, _ => none
  | fuel + 1, input =>
    match parseVal fuel input with
    | none => none
    | some (v, rest) =>
      match skipWs rest with
      | ',' :: rest2 =>
        match parseElems fuel rest2 with
        | some (vs, rest3) => some (.cons v vs, rest3)
        | none => none
      | ']' :: rest2 => some (.cons v .nil, rest2)
      | _ => none

def parseMembers : Nat → List Char → Option (JsonObj × List Char)
  | 0, _ => none
  | fuel + 1, input =>
    match skipWs input with
    | '"' :: cs =>
      match parseStringBody cs with
      | none => none
      | some (key, rest) =>
        match skipWs rest with
        | ':' :: rest2 =>
          match parseVal fuel rest2 with
          | none => none
          | some (v, rest3) =>
            match skipWs rest3 with
            | ',' :: rest4 =>
              match parseMembers fuel rest4 with
              | some (ms, rest5) => some (.cons (String.mk key) v ms, rest5)
              | none => none
            | c :: rest4 =>
              if c = rbrace then some (.cons (String.mk key) v .nil, rest4)
              else none
            | [] => none
        | _ => none
    | _ => none
end

/-- Model of `json.loads`: parse one value, then require only whitespace
to remain (Python raises on extra data). -/
def Json.loads (s : String) : Option Json :=
  match parseVal (s.length + 1) s.toList with
  | some (j, rest) => if skipWs rest = [] then some j else none
  | none => none

/-- Key membership test on a JSON object list (`'k' in d` in Python). -/
def JsonObj.hasKey : JsonObj → String → Bool
  | .nil, _ => false
  | .cons k _ ms, key => k = key || ms.hasKey key

/-- Python `isinstance(x, dict)`. -/
def Json.isDict : Json → Bool
  | .obj _ => true
  | _ => false

/-- Python `'k' in x` for a dict value. -/
def Json.hasKey : Json → String → Bool
  | .obj ms, key => ms.hasKey key
  | _, _ => false

/-- Empty document returned by the store fallbacks:
`{"medications": [], "appointments": []}`. -/
def emptyDoc : Json :=
  .obj (.cons "medications" (.arr .nil) (.cons "appointments" (.arr .nil) .nil))

/-- Backing file model: `none` is a missing file, `some s` its contents. -/
abbrev FileState := Option String

namespace App

/-- Embedding of `load_data` in src/app.py: read `mediremind_data.json`;
a missing file (`FileNotFoundError`) or malformed contents
(`json.JSONDecodeError`) are caught and yield the empty document plus a
displayed `st.error` warning (the returned Bool). Every other path
returns the parsed document. The function is total: it never raises. -/
def load_data (file : FileState) : Json × Bool :=
  match file with
  | none => (emptyDoc, true)
  | some s =>
    match Json.loads s with
    | none => (emptyDoc, true)
    | some j => (j, false)

/-- Embedding of `save_data` in src/app.py: overwrite the file with the
document rendered by `json.dump(data, f, indent=4)`. -/
def save_data (data : Json) : FileState := some (dumps data)

end App

namespace Pa

/-- Embedding of `load_data` in src/pa.py: only `FileNotFoundError` is
caught; malformed JSON lets `json.JSONDecodeError` escape, modelled as
`Except.error`. -/
def load_data (file : FileState) : Except String Json :=
  match file with
  | none => .ok emptyDoc
  | some s =>
    match Json.loads s with
    | none => .error "json.JSONDecodeError"
    | some j => .ok j

/-- Embedding of `save_data` in src/pa.py. -/
def save_data (data : Json) : FileState := some (dumps data)

end Pa

/-- Optional stock block of a medication record. -/
structure Stock where
  current_quantity : Int
  consumption_rate : Int
  alert_threshold : Int
deriving Repr, DecidableEq

/-- Medication record of the document. -/
structure Medication where
  name : String
  schedule : String
  stock : Option Stock
deriving Repr, DecidableEq

/-- Appointment record of the document; `description := none` models a
record without the key (Python `appt.get('description', ...)` only falls
back to its default when the key is absent). -/
structure Appointment where
  date_time : String
  description : Option String
deriving Repr, DecidableEq

/-- In-memory document. -/
structure Document where
  medications : List Medication
  appointments : List Appointment
deriving Repr, DecidableEq

/-- Leading-whitespace removal on a character list. -/
def dropWhileWs : List Char → List Char
  | [] => []
  | c :: cs => if c.isWhitespace then dropWhileWs cs else c :: cs

/-- Model of Python `str.strip()`: remove leading and trailing
whitespace. -/
def pyStrip (s : String) : String :=
  String.mk ((dropWhileWs ((dropWhileWs s.toList).reverse)).reverse)

/-- Embedding of `validate_medication` in src/app.py. `pyStrip`
models Python `str.strip()`. -/
def validate_medication (med : Medication) : Bool × String :=
  if pyStrip med.name = "" then (false, "Medication name cannot be empty")
  else
    match med.stock with
    | some s =>
      if s.current_quantity < 0 then (false, "Current quantity cannot be negative")
      else if s.consumption_rate ≤ 0 then (false, "Consumption rate must be positive")
      else if s.alert_threshold < 0 then (false, "Alert threshold cannot be negative")
      else (true, "")
    | none => (true, "")

/-- Splitting on a separator character, as Python `str.split(sep)`. -/
def splitOnChar (sep : Char) : List Char → List (List Char)
  | [] => [[]]
  | c :: cs =>
    if c = sep then [] :: splitOnChar sep cs
    else
      match splitOnChar sep cs with
      | [] => [[c]]
      | g :: gs => (c :: g) :: gs

/-- Digit run of bounded length read as a number (one strptime field). -/
def fieldNat (maxLen : Nat) (cs : List Char) : Option Nat :=
  if cs.length = 0 || maxLen < cs.length || !cs.all Char.isDigit then none
  else some (digitsToNat cs)

/-- Modelled from the spec: `datetime.strptime(med['schedule'], '%H:%M:%S')`
(Python standard library, not part of this repository). Each of `%H`,
`%M`, `%S` reads one or two digits; the separators are literal colons;
the whole string must be consumed and the fields must form a valid
time of day. The result is the second of the day. -/
def parse_hms (s : String) : Option Nat :=
  match (splitOnChar ':' s.toList).map (fieldNat 2) with
  | [some h, some m, some sec] =>
    if h ≤ 23 && m ≤ 59 && sec ≤ 59 then some (h * 3600 + m * 60 + sec) else none
  | _ => none

/-- Calendar date plus time of day, the result of `datetime.fromisoformat`. -/
structure PyDateTime where
  year : Nat
  month : Nat
  day : Nat
  hour : Nat
  minute : Nat
  second : Nat
deriving Repr, DecidableEq

def isLeapYear (y : Nat) : Bool := (y % 4 = 0 && y % 100 ≠ 0) || y % 400 = 0

def daysInMonth (y m : Nat) : Nat :=
  if m = 2 then (if isLeapYear y then 29 else 28)
  else if m = 4 || m = 6 || m = 9 || m = 11 then 30
  else 31

/-- Digit run of an exact length read as a number. -/
def exactDigits (len : Nat) (cs : List Char) : Option Nat :=
  if cs.length = len && cs.all Char.isDigit then some (digitsToNat cs) else none

/-- Time portion `HH:MM[:SS]` of an ISO-8601 timestamp. -/
def parseTimePart (cs : List Char) : Option (Nat × Nat × Nat) :=
  match splitOnChar ':' cs with
  | [hh, mm] => do
    let h ← exactDigits 2 hh
    let m ← exactDigits 2 mm
    if h ≤ 23 && m ≤ 59 then some (h, m, 0) else none
  | [hh, mm, ss] => do
    let h ← exactDigits 2 hh
    let m ← exactDigits 2 mm
    let sec ← exactDigits 2 ss
    if h ≤ 23 && m ≤ 59 && sec ≤ 59 then some (h, m, sec) else none
  | _ => none

/-- Date portion `YYYY-MM-DD` of an ISO-8601 timestamp, with real
calendar validation (month range and month length, leap years). -/
def parseDatePart (cs : List Char) : Option (Nat × Nat × Nat) :=
  match splitOnChar '-' cs with
  | [yy, mm, dd] => do
    let y ← exactDigits 4 yy
    let mo ← exactDigits 2 mm
    let d ← exactDigits 2 dd
    if 1 ≤ y && 1 ≤ mo && mo ≤ 12 && 1 ≤ d && d ≤ daysInMonth y mo then
      some (y, mo, d)
    else none
  | _ => none

namespace Datetime

/-- Modelled from the spec: `datetime.fromisoformat` (Python standard
library, not part of this repository), core profile
`YYYY-MM-DD[(T| )HH:MM[:SS]]` — an ISO-8601 date with an optional
time of day. Fails on anything else. -/
def fromisoformat (s : String) : Option PyDateTime :=
  let cs := s.toList
  if cs.length < 10 then none
  else
    match parseDatePart (cs.take 10) with
    | none => none
    | some (y, mo, d) =>
      match cs.drop 10 with
      | [] => some ⟨y, mo, d, 0, 0, 0⟩
      | sep :: timecs =>
        if sep = 'T' || sep = ' ' then
          match parseTimePart timecs with
          | some (h, mi, se) => some ⟨y, mo, d, h, mi, se⟩
          | none => none
        else none

end Datetime

/-- Embedding of `validate_appointment` in src/app.py: succeed exactly
when `datetime.fromisoformat(appt['date_time'])` does not raise. -/
def validate_appointment (appt : Appointment) : Bool × String :=
  match Datetime.fromisoformat appt.date_time with
  | none => (false, "Invalid date/time format")
  | some _ => (true, "")

/-- Seconds in a calendar day; timestamps are modelled as seconds
counted from a fixed epoch, so `t / 86400` is the calendar date and
`t % 86400` the time of day. -/
def secondsPerDay : Nat := 86400

/-- Embedding of `get_next_reminder` in src/app.py: parse the schedule
as a time of day (`none` models the `ValueError` the caller propagates),
combine it with the date of `now`, and add one day when the combined
timestamp is strictly before `now`. -/
def get_next_reminder (med : Medication) (now : Nat) : Option Nat :=
  match parse_hms med.schedule with
  | none => none
  | some t =>
    let next := (now / secondsPerDay) * secondsPerDay + t
    some (if next < now then next + secondsPerDay else next)

/-- Recurrence rules the generator can attach to a medication event. -/
inductive RRule where
  | daily
  | dailyInterval2
  | weeklyMonday
deriving Repr, DecidableEq

/-- Start of an emitted calendar event: a reminder timestamp in model
seconds, an all-day date (epoch day number), or a parsed appointment
datetime. -/
inductive DtStart where
  | atSec : Nat → DtStart
  | onDay : Int → DtStart
  | atDT : PyDateTime → DtStart
deriving Repr, DecidableEq

/-- One emitted iCalendar event. -/
structure CalEvent where
  summary : String
  dtstart : DtStart
  rrule : Option RRule
deriving Repr, DecidableEq

/-- Recurrence selection in `generate_calendar` (src/app.py lines
68-73). -/
def rruleFor (frequency : String) : RRule :=
  if frequency = "every_other_day" then .dailyInterval2
  else if frequency = "weekly" then .weeklyMonday
  else .daily

/-- The medication filter of `generate_calendar`:
`not selected_meds or med['name'] in selected_meds`, where both `None`
and the empty list are falsy. -/
def medSelected (selected_meds : Option (List String)) (name : String) : Bool :=
  match selected_meds with
  | none => true
  | some l => l.isEmpty || l.contains name

/-- Embedding of the refill computation (src/app.py line 81):
`math.ceil((current_quantity - alert_threshold) / consumption_rate)`,
with the division taken exactly over the rationals. -/
def days_until_low (current_quantity alert_threshold consumption_rate : Int) : Int :=
  ⌈((current_quantity : ℚ) - (alert_threshold : ℚ)) / (consumption_rate : ℚ)⌉

/-- Events emitted for one selected medication by `generate_calendar`:
the recurring "Take" event at the next reminder, then — when stock is
present and the guard holds — one "Refill" all-day event. `none` models
the `ValueError` of an unparseable schedule, which aborts generation.
`freqOf` models `st.session_state.get`, whose default is "daily". -/
def medEvents (freqOf : String → Option String) (now : Nat) (med : Medication) :
    Option (List CalEvent) :=
  match get_next_reminder med now with
  | none => none
  | some reminder =>
    let frequency := (freqOf ("freq_" ++ med.name)).getD "daily"
    let takeEvent : CalEvent :=
      ⟨"Take " ++ med.name, .atSec reminder, some (rruleFor frequency)⟩
    let stockEvents : List CalEvent :=
      match med.stock with
      | none => []
      | some s =>
        if s.consumption_rate > 0 && s.current_quantity > s.alert_threshold then
          [⟨"Refill " ++ med.name,
            .onDay ((now / secondsPerDay : Nat) +
              days_until_low s.current_quantity s.alert_threshold s.consumption_rate),
            none⟩]
        else []
    some (takeEvent :: stockEvents)

/-- Title of an appointment event:
`appt.get('description', 'Doctor Appointment')` — the default applies
only when the key is absent, not when the stored text is blank. -/
def apptSummary (appt : Appointment) : String :=
  (appt.description).getD "Doctor Appointment"

/-- Event emitted for one appointment by `generate_calendar` (src/app.py
lines 88-92); `none` models the `ValueError` of an unparseable
`date_time`. -/
def apptEvent (appt : Appointment) : Option CalEvent :=
  match Datetime.fromisoformat appt.date_time with
  | none => none
  | some dt => some ⟨apptSummary appt, .atDT dt, none⟩

/-- Embedding of `generate_calendar` in src/app.py: filter the
medications by the selection, emit their events, then one event per
appointment. -/
def generate_calendar (freqOf : String → Option String) (now : Nat)
    (data : Document) (selected_meds : Option (List String)) :
    Option (List CalEvent) := do
  let meds := data.medications.filter (fun med => medSelected selected_meds med.name)
  let medEvs ← meds.mapM (medEvents freqOf now)
  let apptEvs ← data.appointments.mapM apptEvent
  pure (medEvs.flatten ++ apptEvs)

/-- Entry the Home page appends for one appointment (src/app.py lines
126-131): same title choice as the calendar event. -/
def homeApptEntry (appt : Appointment) : Option (DtStart × String) :=
  match Datetime.fromisoformat appt.date_time with
  | none => none
  | some dt => some (.atDT dt, apptSummary appt)

/-- Result of one run of the Export/Import page's import branch. -/
structure ImportResult where
  errors : List String
  applied : Option Json

/-- Embedding of the import handler (src/app.py lines 236-258). The
`st.stop()` on line 241 sits outside the `if` of line 239, so after the
shape check the run always stops: the per-record validation loops and
the assignment plus `save_data` call (lines 242-254) are unreachable,
and `applied` is always `none`. A `json.JSONDecodeError` is caught and
reported. -/
def importUpload (upload : String) : ImportResult :=
  match Json.loads upload with
  | none => { errors := ["Invalid JSON file format"], applied := none }
  | some new_data =>
    let errs : List String :=
      if !new_data.isDict || !new_data.hasKey "medications"
          || !new_data.hasKey "appointments" then
        ["Invalid data format. Please upload a valid MediRemind JSON file."]
      else []
    { errors := errs, applied := none }

/-! Helper lemmas for the JSON round-trip. -/

theorem mk_toList (s : String) : String.mk s.toList = s := rfl

theorem isDigit_ne {c c' : Char} (h : c.isDigit = true) (h' : c'.isDigit = false) :
    c ≠ c' := by
  intro e
  rw [e, h'] at h
  cases h

theorem isWsChar_false_of_isDigit {c : Char} (h : c.isDigit = true) :
    isWsChar c = false := by
  unfold isWsChar
  have h1 : c ≠ ' ' := isDigit_ne h (by decide)
  have h2 : c ≠ '\n' := isDigit_ne h (by decide)
  have h3 : c ≠ '\t' := isDigit_ne h (by decide)
  have h4 : c ≠ '\r' := isDigit_ne h (by decide)
  simp [h1, h2, h3, h4]

theorem digitChar_isDigit {d : Nat} (h : d < 10) : (digitChar d).isDigit = true := by
  interval_cases d <;> decide

theorem digitChar_toNat {d : Nat} (h : d < 10) : (digitChar d).toNat = 48 + d := by
  interval_cases d <;> decide

theorem natChars_ne_nil (n : Nat) : natChars n ≠ [] := by
  unfold natChars
  split <;> simp

theorem natChars_all_digits (n : Nat) : ∀ c ∈ natChars n, c.isDigit = true := by
  induction n using Nat.strong_induction_on with
  | _ n ih =>
    unfold natChars
    split
    · next h =>
      intro c hc
      simp only [List.mem_singleton] at hc
      subst hc
      exact digitChar_isDigit h
    · next h =>
      intro c hc
      rw [List.mem_append] at hc
      rcases hc with h1 | h1
      · exact ih (n / 10) (Nat.div_lt_self (by omega) (by omega)) c h1
      · simp only [List.mem_singleton] at h1
        subst h1
        exact digitChar_isDigit (Nat.mod_lt _ (by omega))

theorem natChars_head (n : Nat) :
    ∃ c cs, natChars n = c :: cs ∧ c.isDigit = true := by
  cases h : natChars n with
  | nil => exact absurd h (natChars_ne_nil n)
  | cons c cs =>
    exact ⟨c, cs, rfl, natChars_all_digits n c (by rw [h]; exact List.mem_cons_self c cs)⟩

theorem digitsToNat_append_one (l : List Char) (c : Char) :
    digitsToNat (l ++ [c]) = digitsToNat l * 10 + (c.toNat - 48) := by
  simp [digitsToNat, List.foldl_append]

theorem digitsToNat_natChars (n : Nat) : digitsToNat (natChars n) = n := by
  induction n using Nat.strong_induction_on with
  | _ n ih =>
    unfold natChars
    split
    · next h =>
      have := digitChar_toNat h
      simp [digitsToNat]
      omega
    · next h =>
      rw [digitsToNat_append_one, ih (n / 10) (Nat.div_lt_self (by omega) (by omega))]
      have := digitChar_toNat (show n % 10 < 10 from Nat.mod_lt _ (by omega))
      omega

theorem takeDigits_append (ds rest : List Char) (hd : ∀ c ∈ ds, c.isDigit = true)
    (hr : numSafe rest = true) : takeDigits (ds ++ rest) = (ds, rest) := by
  induction ds with
  | nil =>
    cases rest with
    | nil => rfl
    | cons c cs =>
      simp only [numSafe, Bool.not_eq_true'] at hr
      simp [takeDigits, hr]
  | cons c cs ih =>
    have hc := hd c (List.mem_cons_self c cs)
    have ih' := ih (fun x hx => hd x (List.mem_cons_of_mem c hx))
    simp [takeDigits, hc, ih']

theorem parseNum_intChars (n : Int) (rest : List Char) (hr : numSafe rest = true) :
    parseNum (intChars n ++ rest) = some (n, rest) := by
  unfold intChars
  split
  · next hneg =>
    simp only [List.cons_append, parseNum, if_pos rfl]
    rw [takeDigits_append _ _ (natChars_all_digits _) hr]
    simp only [natChars_ne_nil, if_neg]
    rw [digitsToNat_natChars]
    have : ((n.natAbs : Int)) = -n := by omega
    simp [this]
  · next hpos =>
    obtain ⟨c, cs, hc, hdig⟩ := natChars_head n.natAbs
    rw [hc]
    have hne : c ≠ '-' := isDigit_ne hdig (by decide)
    simp only [List.cons_append, parseNum, if_neg hne]
    rw [show (c :: (cs ++ rest)) = (c :: cs) ++ rest from rfl, ← hc]
    rw [takeDigits_append _ _ (natChars_all_digits _) hr]
    simp only [natChars_ne_nil, if_neg]
    rw [digitsToNat_natChars]
    have : ((n.natAbs : Int)) = n := by omega
    simp [this]

theorem escapeChar_literal {c : Char} (h1 : c ≠ '"') (h2 : c ≠ '\\') (h3 : c ≠ '\n')
    (h4 : c ≠ '\t') (h5 : c ≠ '\r') : escapeChar c = [c] := by
  simp [escapeChar, h1, h2, h3, h4, h5]

theorem parseStringBody_escape (l rest : List Char) :
    parseStringBody (escapeChars l ++ '"' :: rest) = some (l, rest) := by
  induction l with
  | nil =>
    rw [parseStringBody.eq_def]
    simp [escapeChars]
  | cons c cs ih =>
    show parseStringBody ((escapeChar c ++ escapeChars cs) ++ '"' :: rest) = _
    by_cases h1 : c = '"'
    · subst h1
      simp [escapeChar, parseStringBody, unescapeChar, ih]
    · by_cases h2 : c = '\\'
      · subst h2
        simp [escapeChar, parseStringBody, unescapeChar, ih]
      · by_cases h3 : c = '\n'
        · subst h3
          simp [escapeChar, parseStringBody, unescapeChar, ih]
        · by_cases h4 : c = '\t'
          · subst h4
            simp [escapeChar, parseStringBody, unescapeChar, ih]
          · by_cases h5 : c = '\r'
            · subst h5
              simp [escapeChar, parseStringBody, unescapeChar, ih]
            · rw [escapeChar_literal h1 h2 h3 h4 h5]
              simp only [List.cons_append, List.nil_append]
              rw [parseStringBody.eq_def]
              simp only [if_neg h1, if_neg h2, ih]

theorem skipWs_cons_ws {c : Char} (h : isWsChar c = true) (cs : List Char) :
    skipWs (c :: cs) = skipWs cs := by
  simp [skipWs, h]

theorem skipWs_cons_not_ws {c : Char} (h : isWsChar c = false) (cs : List Char) :
    skipWs (c :: cs) = c :: cs := by
  simp [skipWs, h]

theorem skipWs_replicate_space (n : Nat) (cs : List Char) :
    skipWs (List.replicate n ' ' ++ cs) = skipWs cs := by
  induction n with
  | zero => rfl
  | succ k ih =>
    rw [List.replicate_succ, List.cons_append, skipWs_cons_ws (by decide), ih]

theorem skipWs_indent (level : Nat) (cs : List Char) :
    skipWs (indentChars level ++ cs) = skipWs cs :=
  skipWs_replicate_space _ cs

theorem intChars_head (n : Int) :
    ∃ c cs, intChars n = c :: cs ∧ (c = '-' ∨ c.isDigit = true) := by
  unfold intChars
  split
  · exact ⟨'-', natChars n.natAbs, rfl, Or.inl rfl⟩
  · obtain ⟨c, cs, hc, hdig⟩ := natChars_head n.natAbs
    exact ⟨c, cs, hc, Or.inr hdig⟩

/-- Rendered values start with a non-whitespace character that is not a
closing bracket, a comma or a colon. -/
theorem dumpVal_head (level : Nat) (j : Json) :
    ∃ c cs, dumpVal level j = c :: cs ∧ isWsChar c = false ∧ c ≠ ']' ∧ c ≠ ',' := by
  cases j with
  | null => exact ⟨'n', _, rfl, by decide, by decide, by decide⟩
  | bool b =>
    cases b
    · exact ⟨'f', _, rfl, by decide, by decide, by decide⟩
    · exact ⟨'t', _, rfl, by decide, by decide, by decide⟩
  | num n =>
    obtain ⟨c, cs, hc, hd⟩ := intChars_head n
    refine ⟨c, cs, hc, ?_, ?_, ?_⟩
    · rcases hd with rfl | hd
      · decide
      · exact isWsChar_false_of_isDigit hd
    · rcases hd with rfl | hd
      · decide
      · exact isDigit_ne hd (by decide)
    · rcases hd with rfl | hd
      · decide
      · exact isDigit_ne hd (by decide)
  | str s => exact ⟨'"', _, rfl, by decide, by decide, by decide⟩
  | arr xs =>
    cases xs
    · exact ⟨'[', _, rfl, by decide, by decide, by decide⟩
    · exact ⟨'[', _, rfl, by decide, by decide, by decide⟩
  | obj ms =>
    cases ms
    · exact ⟨lbrace, _, rfl, by decide, by decide, by decide⟩
    · exact ⟨lbrace, _, rfl, by decide, by decide, by decide⟩

theorem parseVal_cons_ws (fuel : Nat) {c : Char} (h : isWsChar c = true)
    (cs : List Char) : parseVal fuel (c :: cs) = parseVal fuel cs := by
  cases fuel with
  | zero => rfl
  | succ f =>
    show parseVal (Nat.succ f) (c :: cs) = parseVal (Nat.succ f) cs
    rw [parseVal.eq_2, parseVal.eq_2, skipWs_cons_ws h]

theorem parseVal_indent (fuel level : Nat) (cs : List Char) :
    parseVal fuel (indentChars level ++ cs) = parseVal fuel cs := by
  cases fuel with
  | zero => rfl
  | succ f =>
    show parseVal (Nat.succ f) (indentChars level ++ cs) = parseVal (Nat.succ f) cs
    rw [parseVal.eq_2, parseVal.eq_2, skipWs_indent]

theorem parseElems_cons_ws (fuel : Nat) {c : Char} (h : isWsChar c = true)
    (cs : List Char) : parseElems fuel (c :: cs) = parseElems fuel cs := by
  cases fuel with
  | zero => rfl
  | succ f =>
    show parseElems (Nat.succ f) (c :: cs) = parseElems (Nat.succ f) cs
    rw [parseElems.eq_2, parseElems.eq_2, parseVal_cons_ws f h]

theorem parseElems_indent (fuel level : Nat) (cs : List Char) :
    parseElems fuel (indentChars level ++ cs) = parseElems fuel cs := by
  cases fuel with
  | zero => rfl
  | succ f =>
    show parseElems (Nat.succ f) (indentChars level ++ cs) = parseElems (Nat.succ f) cs
    rw [parseElems.eq_2, parseElems.eq_2, parseVal_indent f level]

theorem parseMembers_cons_ws (fuel : Nat) {c : Char} (h : isWsChar c = true)
    (cs : List Char) : parseMembers fuel (c :: cs) = parseMembers fuel cs := by
  cases fuel with
  | zero => rfl
  | succ f =>
    show parseMembers (Nat.succ f) (c :: cs) = parseMembers (Nat.succ f) cs
    rw [parseMembers.eq_2, parseMembers.eq_2, skipWs_cons_ws h]

theorem parseMembers_indent (fuel level : Nat) (cs : List Char) :
    parseMembers fuel (indentChars level ++ cs) = parseMembers fuel cs := by
  cases fuel with
  | zero => rfl
  | succ f =>
    show parseMembers (Nat.succ f) (indentChars level ++ cs) = parseMembers (Nat.succ f) cs
    rw [parseMembers.eq_2, parseMembers.eq_2, skipWs_indent]

mutual
theorem nodes_le_dumpVal_length : ∀ (j : Json) (level : Nat),
    j.nodes ≤ (dumpVal level j).length
  | .null, _ => by simp [Json.nodes, dumpVal, kwNull]
  | .bool b, _ => by cases b <;> simp [Json.nodes, dumpVal, kwTrue, kwFalse]
  | .num n, _ => by
    have h : natChars n.natAbs ≠ [] := natChars_ne_nil _
    have hp : 0 < (natChars n.natAbs).length := List.length_pos.mpr h
    simp only [Json.nodes, dumpVal, intChars]
    split <;> simp
    all_goals omega
  | .str s, _ => by simp [Json.nodes, dumpVal, quoteChars]
  | .arr .nil, _ => by simp [Json.nodes, JsonList.nodes, dumpVal]
  | .arr (.cons x xs), level => by
    have h1 := nodes_le_dumpVal_length x (level + 1)
    have h2 := nodes_le_dumpItems_length xs (level + 1)
    simp only [Json.nodes, JsonList.nodes, dumpVal, List.length_cons,
      List.length_append]
    omega
  | .obj .nil, _ => by simp [Json.nodes, JsonObj.nodes, dumpVal]
  | .obj (.cons k v ms), level => by
    have h1 := nodes_le_dumpVal_length v (level + 1)
    have h2 := nodes_le_dumpMembers_length ms (level + 1)
    simp only [Json.nodes, JsonObj.nodes, dumpVal, List.length_cons,
      List.length_append]
    omega

theorem nodes_le_dumpItems_length : ∀ (xs : JsonList) (level : Nat),
    xs.nodes ≤ (dumpItems level xs).length
  | .nil, _ => by simp [JsonList.nodes, dumpItems]
  | .cons x xs, level => by
    have h1 := nodes_le_dumpVal_length x level
    have h2 := nodes_le_dumpItems_length xs level
    simp only [JsonList.nodes, dumpItems, List.length_cons, List.length_append]
    omega

theorem nodes_le_dumpMembers_length : ∀ (ms : JsonObj) (level : Nat),
    ms.nodes ≤ (dumpMembers level ms).length
  | .nil, _ => by simp [JsonObj.nodes, dumpMembers]
  | .cons k v ms, level => by
    have h1 := nodes_le_dumpVal_length v level
    have h2 := nodes_le_dumpMembers_length ms level
    simp only [JsonObj.nodes, dumpMembers, List.length_cons, List.length_append]
    omega
end

theorem quote_cons (k : String) (X : List Char) :
    '"' :: (escapeChars k.toList ++ ('"' :: X)) = quoteChars k ++ X := by
  simp [quoteChars]

theorem parse_dump_main (fuel : Nat) :
    (∀ (j : Json) (level : Nat) (rest : List Char), j.nodes < fuel → numSafe rest = true →
      parseVal fuel (dumpVal level j ++ rest) = some (j, rest)) ∧
    (∀ (x : Json) (xs : JsonList) (level lc : Nat) (rest : List Char),
      x.nodes + xs.nodes + 1 < fuel →
      parseElems fuel (dumpVal level x ++ (dumpItems level xs
        ++ '\n' :: (indentChars lc ++ ']' :: rest))) = some (JsonList.cons x xs, rest)) ∧
    (∀ (k : String) (v : Json) (ms : JsonObj) (level lc : Nat) (rest : List Char),
      v.nodes + ms.nodes + 1 < fuel →
      parseMembers fuel (quoteChars k ++ ':' :: ' ' :: (dumpVal level v
        ++ (dumpMembers level ms ++ '\n' :: (indentChars lc ++ rbrace :: rest))))
        = some (JsonObj.cons k v ms, rest)) := by
  induction fuel with
  | zero =>
    refine ⟨?_, ?_, ?_⟩
    · intro j _ _ h _
      exact absurd h (Nat.not_lt_zero _)
    · intro x xs _ _ _ h
      exact absurd h (Nat.not_lt_zero _)
    · intro k v ms _ _ _ h
      exact absurd h (Nat.not_lt_zero _)
  | succ fuel ih =>
    obtain ⟨ih1, ih2, ih3⟩ := ih
    refine ⟨?_, ?_, ?_⟩
    · intro j level rest hn hr
      cases j with
      | null =>
        show parseVal (Nat.succ fuel) (['n', 'u', 'l', 'l'] ++ rest) = _
        rw [parseVal.eq_2]
        simp only [List.cons_append, List.nil_append]
        rw [skipWs_cons_not_ws (by decide)]
        simp [stripLit]
      | bool b =>
        cases b
        · show parseVal (Nat.succ fuel) (['f', 'a', 'l', 's', 'e'] ++ rest) = _
          rw [parseVal.eq_2]
          simp only [List.cons_append, List.nil_append]
          rw [skipWs_cons_not_ws (by decide)]
          simp [stripLit]
        · show parseVal (Nat.succ fuel) (['t', 'r', 'u', 'e'] ++ rest) = _
          rw [parseVal.eq_2]
          simp only [List.cons_append, List.nil_append]
          rw [skipWs_cons_not_ws (by decide)]
          simp [stripLit]
      | num n =>
        obtain ⟨c, cs, hc, hd⟩ := intChars_head n
        have hws : isWsChar c = false := by
          rcases hd with rfl | hd
          · decide
          · exact isWsChar_false_of_isDigit hd
        have h1 : ¬c = 'n' := by
          rcases hd with rfl | hd
          · decide
          · exact isDigit_ne hd (by decide)
        have h2 : ¬c = 't' := by
          rcases hd with rfl | hd
          · decide
          · exact isDigit_ne hd (by decide)
        have h3 : ¬c = 'f' := by
          rcases hd with rfl | hd
          · decide
          · exact isDigit_ne hd (by decide)
        have h4 : ¬c = '"' := by
          rcases hd with rfl | hd
          · decide
          · exact isDigit_ne hd (by decide)
        have h5 : ¬c = '[' := by
          rcases hd with rfl | hd
          · decide
          · exact isDigit_ne hd (by decide)
        have h6 : ¬c = lbrace := by
          rcases hd with rfl | hd
          · decide
          · exact isDigit_ne hd (by decide)
        show parseVal (Nat.succ fuel) (intChars n ++ rest) = _
        rw [parseVal.eq_2, hc]
        simp only [List.cons_append]
        rw [skipWs_cons_not_ws hws]
        simp only [if_neg h1, if_neg h2, if_neg h3, if_neg h4, if_neg h5, if_neg h6]
        rw [show (c :: (cs ++ rest)) = (c :: cs) ++ rest from rfl, ← hc]
        rw [parseNum_intChars n rest hr]
      | str s =>
        show parseVal (Nat.succ fuel)
          (('"' :: (escapeChars s.toList ++ ['"'])) ++ rest) = _
        rw [parseVal.eq_2]
        simp only [List.cons_append, List.append_assoc, List.nil_append]
        rw [skipWs_cons_not_ws (by decide)]
        simp only [show ¬('"' = 'n') from by decide, show ¬('"' = 't') from by decide,
          show ¬('"' = 'f') from by decide, if_neg, if_pos rfl, if_true, if_false]
        rw [parseStringBody_escape]
        simp [mk_toList]
      | arr xs =>
        cases xs with
        | nil =>
          show parseVal (Nat.succ fuel) (['[', ']'] ++ rest) = _
          rw [parseVal.eq_2]
          simp only [List.cons_append, List.nil_append]
          rw [skipWs_cons_not_ws (by decide)]
          simp only [show ¬('[' = 'n') from by decide, show ¬('[' = 't') from by decide,
            show ¬('[' = 'f') from by decide, show ¬('[' = '"') from by decide,
            if_neg, if_pos rfl, if_true, if_false]
          rw [skipWs_cons_not_ws (by decide)]
          rfl
        | cons x xs =>
          obtain ⟨c0, t0, hdump, hws0, hbr0, _⟩ := dumpVal_head (level + 1) x
          have hb : x.nodes + xs.nodes + 1 < fuel := by
            simp only [Json.nodes, JsonList.nodes] at hn
            omega
          show parseVal (Nat.succ fuel)
            (('[' :: '\n' :: (indentChars (level + 1) ++ dumpVal (level + 1) x
              ++ dumpItems (level + 1) xs ++ '\n' :: (indentChars level ++ [']'])))
              ++ rest) = _
          rw [parseVal.eq_2]
          simp only [List.cons_append, List.append_assoc, List.nil_append]
          rw [skipWs_cons_not_ws (by decide)]
          simp only [show ¬('[' = 'n') from by decide, show ¬('[' = 't') from by decide,
            show ¬('[' = 'f') from by decide, show ¬('[' = '"') from by decide,
            if_neg, if_pos rfl, if_true, if_false]
          rw [skipWs_cons_ws (by decide), skipWs_indent, hdump]
          simp only [List.cons_append]
          rw [skipWs_cons_not_ws hws0]
          rw [show (c0 :: (t0 ++ (dumpItems (level + 1) xs
            ++ '\n' :: (indentChars level ++ ']' :: rest))))
            = ((c0 :: t0) ++ (dumpItems (level + 1) xs
              ++ '\n' :: (indentChars level ++ ']' :: rest))) from rfl, ← hdump]
          split
          · next heq =>
            rw [hdump] at heq
            simp only [List.cons_append] at heq
            injection heq with hc0 _
            exact absurd hc0 hbr0
          · rw [ih2 x xs (level + 1) level rest hb]
      | obj ms =>
        cases ms with
        | nil =>
          show parseVal (Nat.succ fuel) ([lbrace, rbrace] ++ rest) = _
          rw [parseVal.eq_2]
          simp only [List.cons_append, List.nil_append]
          rw [skipWs_cons_not_ws (by decide)]
          simp only [show ¬(lbrace = 'n') from by decide, show ¬(lbrace = 't') from by decide,
            show ¬(lbrace = 'f') from by decide, show ¬(lbrace = '"') from by decide,
            show ¬(lbrace = '[') from by decide, if_neg, if_pos rfl, if_true, if_false]
          rw [skipWs_cons_not_ws (by decide)]
          rfl
        | cons k v ms =>
          have hb : v.nodes + ms.nodes + 1 < fuel := by
            simp only [Json.nodes, JsonObj.nodes] at hn
            omega
          show parseVal (Nat.succ fuel)
            ((lbrace :: '\n' :: (indentChars (level + 1) ++ quoteChars k
              ++ ':' :: ' ' :: (dumpVal (level + 1) v)
              ++ dumpMembers (level + 1) ms ++ '\n' :: (indentChars level ++ [rbrace])))
              ++ rest) = _
          rw [parseVal.eq_2]
          simp only [List.cons_append, List.append_assoc, List.nil_append]
          rw [skipWs_cons_not_ws (by decide)]
          simp only [show ¬(lbrace = 'n') from by decide, show ¬(lbrace = 't') from by decide,
            show ¬(lbrace = 'f') from by decide, show ¬(lbrace = '"') from by decide,
            show ¬(lbrace = '[') from by decide, if_neg, if_pos rfl, if_true, if_false]
          rw [skipWs_cons_ws (by decide), skipWs_indent]
          simp only [quoteChars, List.cons_append, List.append_assoc, List.nil_append]
          rw [skipWs_cons_not_ws (by decide)]
          simp only [show ¬('"' = rbrace) from by decide, if_neg, if_false]
          rw [quote_cons]
          rw [ih3 k v ms (level + 1) level rest hb]
    · intro x xs level lc rest hb
      show parseElems (Nat.succ fuel) _ = _
      rw [parseElems.eq_2]
      cases xs with
      | nil =>
        have hx : x.nodes < fuel := by
          simp only [JsonList.nodes] at hb
          omega
        simp only [dumpItems, List.nil_append]
        rw [ih1 x level ('\n' :: (indentChars lc ++ ']' :: rest)) hx rfl]
        simp only []
        rw [skipWs_cons_ws (by decide), skipWs_indent,
          skipWs_cons_not_ws (by decide)]
        rfl
      | cons x2 xs2 =>
        have hx : x.nodes < fuel := by
          simp only [JsonList.nodes] at hb
          omega
        have hb2 : x2.nodes + xs2.nodes + 1 < fuel := by
          simp only [JsonList.nodes] at hb
          omega
        simp only [dumpItems, List.cons_append, List.append_assoc, List.nil_append]
        rw [ih1 x level (',' :: '\n' :: (indentChars level ++ (dumpVal level x2
          ++ (dumpItems level xs2 ++ '\n' :: (indentChars lc ++ ']' :: rest))))) hx rfl]
        simp only []
        rw [skipWs_cons_not_ws (by decide)]
        simp only []
        rw [parseElems_cons_ws fuel (by decide), parseElems_indent]
        rw [ih2 x2 xs2 level lc rest hb2]
    · intro k v ms level lc rest hb
      show parseMembers (Nat.succ fuel) _ = _
      rw [parseMembers.eq_2]
      rw [← quote_cons]
      rw [skipWs_cons_not_ws (by decide)]
      simp only []
      rw [parseStringBody_escape]
      simp only []
      rw [skipWs_cons_not_ws (by decide)]
      simp only []
      rw [parseVal_cons_ws fuel (by decide)]
      cases ms with
      | nil =>
        have hv : v.nodes < fuel := by
          simp only [JsonObj.nodes] at hb
          omega
        simp only [dumpMembers, List.nil_append]
        rw [ih1 v level ('\n' :: (indentChars lc ++ rbrace :: rest)) hv rfl]
        simp only []
        rw [skipWs_cons_ws (by decide), skipWs_indent,
          skipWs_cons_not_ws (by decide)]
        rfl
      | cons k2 v2 ms2 =>
        have hv : v.nodes < fuel := by
          simp only [JsonObj.nodes] at hb
          omega
        have hb2 : v2.nodes + ms2.nodes + 1 < fuel := by
          simp only [JsonObj.nodes] at hb
          omega
        simp only [dumpMembers, List.cons_append, List.append_assoc, List.nil_append]
        rw [ih1 v level (',' :: '\n' :: (indentChars level ++ (quoteChars k2
          ++ ':' :: ' ' :: (dumpVal level v2 ++ (dumpMembers level ms2
            ++ '\n' :: (indentChars lc ++ rbrace :: rest)))))) hv rfl]
        simp only []
        rw [skipWs_cons_not_ws (by decide)]
        simp only []
        rw [parseMembers_cons_ws fuel (by decide), parseMembers_indent]
        rw [ih3 k2 v2 ms2 level lc rest hb2]
        rfl



theorem loads_dumps (j : Json) : Json.loads (dumps j) = some j := by
  unfold Json.loads dumps
  have htl : (String.mk (dumpVal 0 j)).toList = dumpVal 0 j := rfl
  have hlen : (String.mk (dumpVal 0 j)).length = (dumpVal 0 j).length := rfl
  rw [htl, hlen]
  have hb : j.nodes < (dumpVal 0 j).length + 1 := by
    have := nodes_le_dumpVal_length j 0
    omega
  have h := (parse_dump_main ((dumpVal 0 j).length + 1)).1 j 0 [] hb rfl
  rw [List.append_nil] at h
  rw [h]
  rfl

theorem parse_hms_lt_day {s : String} {t : Nat} (h : parse_hms s = some t) :
    t < secondsPerDay := by
  unfold parse_hms at h
  split at h
  · next hh mm ss heq =>
    split at h
    · next hcond =>
      injection h with h
      simp only [Bool.and_eq_true, decide_eq_true_eq] at hcond
      unfold secondsPerDay
      omega
    · cases h
  · cases h

theorem refill_ne_take (n : String) : ("Refill " ++ n) ≠ ("Take " ++ n) := by
  intro h
  have h2 := congrArg String.length h
  rw [String.length_append, String.length_append] at h2
  have e1 : ("Refill ").length = 7 := rfl
  have e2 : ("Take ").length = 5 := rfl
  omega

/-- C3: for a medication whose schedule parses as a time of day `t`,
`get_next_reminder` combines `t` with the calendar date of `now`; a
schedule time strictly earlier than the current time of day yields the
following calendar day, one later than or equal to it yields today, and
the result is always at least `now`. -/
theorem C3_next_reminder (med : Medication) (now t : Nat)
    (h : parse_hms med.schedule = some t) :
    (t < now % secondsPerDay →
      get_next_reminder med now
        = some ((now / secondsPerDay + 1) * secondsPerDay + t)) ∧
    (now % secondsPerDay ≤ t →
      get_next_reminder med now
        = some (now / secondsPerDay * secondsPerDay + t)) ∧
    (∀ r, get_next_reminder med now = some r → now ≤ r) := by
  have hday : t < secondsPerDay := parse_hms_lt_day h
  unfold secondsPerDay at hday
  unfold get_next_reminder secondsPerDay
  rw [h]
  simp only []
  refine ⟨?_, ?_, ?_⟩
  · intro hlt
    rw [if_pos (by omega)]
    simp only [Option.some.injEq]
    omega
  · intro hge
    rw [if_neg (by omega)]
  · intro r hr
    split at hr <;> (injection hr with hr; omega)

/-- C3 witness: schedule "08:00:00"; at 09:00 the reminder moves to the
next calendar day, at 07:00 it stays on the current day. -/
theorem C3_witness :
    get_next_reminder ⟨"A", "08:00:00", none⟩ 8672400 = some 8755200 ∧
    get_next_reminder ⟨"A", "08:00:00", none⟩ 8665200 = some 8668800 := by
  constructor
  · have h := (C3_next_reminder ⟨"A", "08:00:00", none⟩ 8672400 28800 (by decide)).1
      (by decide)
    rw [h]
    rfl
  · have h := (C3_next_reminder ⟨"A", "08:00:00", none⟩ 8665200 28800 (by decide)).2.1
      (by decide)
    rw [h]
    rfl

/-- C4: for a processed medication with stock, the refill event is
emitted exactly when `consumption_rate > 0` and
`current_quantity > alert_threshold`, dated `days_until_low` days from
today, where `days_until_low` is the ceiling of the exact rational
`(current_quantity - alert_threshold) / consumption_rate`. -/
theorem C4_days_until_low (freqOf : String → Option String) (now : Nat)
    (med : Medication) (s : Stock) (reminder : Nat)
    (hs : med.stock = some s) (hg : get_next_reminder med now = some reminder) :
    (0 < s.consumption_rate → s.alert_threshold < s.current_quantity →
      medEvents freqOf now med = some
        [⟨"Take " ++ med.name, .atSec reminder,
          some (rruleFor ((freqOf ("freq_" ++ med.name)).getD "daily"))⟩,
         ⟨"Refill " ++ med.name,
          .onDay ((now / secondsPerDay : Nat)
            + days_until_low s.current_quantity s.alert_threshold s.consumption_rate),
          none⟩]) ∧
    (¬(0 < s.consumption_rate ∧ s.alert_threshold < s.current_quantity) →
      medEvents freqOf now med = some
        [⟨"Take " ++ med.name, .atSec reminder,
          some (rruleFor ((freqOf ("freq_" ++ med.name)).getD "daily"))⟩]) ∧
    days_until_low s.current_quantity s.alert_threshold s.consumption_rate
      = ⌈((s.current_quantity : ℚ) - (s.alert_threshold : ℚ)) / (s.consumption_rate : ℚ)⌉ := by
  refine ⟨?_, ?_, rfl⟩
  · intro h1 h2
    unfold medEvents
    rw [hg, hs]
    simp only []
    rw [if_pos (by simp [h1, h2])]
  · intro hnot
    unfold medEvents
    rw [hg, hs]
    simp only []
    rw [if_neg ?cond]
    case cond =>
      simp only [Bool.and_eq_true, decide_eq_true_eq, gt_iff_lt]
      intro hc
      exact hnot ⟨hc.1, hc.2⟩

/-- C4 witness: stock 30/5/10 gives a refill in exactly
`ceil((30 - 10) / 5) = 4` days; the spec example evaluates to 4. -/
theorem C4_witness :
    medEvents (fun _ => none) 8672400 ⟨"X", "08:00:00", some ⟨30, 5, 10⟩⟩
      = some [⟨"Take X", .atSec 8755200, some .daily⟩,
              ⟨"Refill X", .onDay 104, none⟩] ∧
    days_until_low 30 10 5 = 4 := by
  have h := (C4_days_until_low (fun _ => none) 8672400 ⟨"X", "08:00:00", some ⟨30, 5, 10⟩⟩
    ⟨30, 5, 10⟩ 8755200 rfl (by decide)).1 (by decide) (by decide)
  have hd : days_until_low 30 10 5 = 4 := by
    unfold days_until_low
    norm_num
  constructor
  · rw [h]
    simp [hd, rruleFor, secondsPerDay]
  · exact hd



/-- C5: the recurrence rule attached to a medication event is daily with
interval two for frequency "every_other_day", weekly on Monday for
"weekly", and plain daily for any other value; each selected medication
yields exactly one "Take" event; and the concrete scenario of one
medication with frequency "weekly", no stock and no appointments yields
exactly one event, with the weekly-Monday rule and no refill events. -/
theorem C5_recurrence (freqOf : String → Option String) (now : Nat)
    (med : Medication) (reminder : Nat)
    (hg : get_next_reminder med now = some reminder) :
    (rruleFor "every_other_day" = .dailyInterval2) ∧
    (rruleFor "weekly" = .weeklyMonday) ∧
    (∀ f, f ≠ "every_other_day" → f ≠ "weekly" → rruleFor f = .daily) ∧
    (∀ evs, medEvents freqOf now med = some evs →
      evs.countP (fun e => decide (e.summary = "Take " ++ med.name)) = 1) ∧
    (med.stock = none → freqOf ("freq_" ++ med.name) = some "weekly" →
      generate_calendar freqOf now ⟨[med], []⟩ none
        = some [⟨"Take " ++ med.name, .atSec reminder, some .weeklyMonday⟩]) := by
  refine ⟨rfl, rfl, ?_, ?_, ?_⟩
  · intro f h1 h2
    unfold rruleFor
    rw [if_neg h1, if_neg h2]
  · intro evs hevs
    unfold medEvents at hevs
    rw [hg] at hevs
    simp only [Option.some.injEq] at hevs
    subst hevs
    rw [List.countP_cons_of_pos _ _ (by simp)]
    cases hs : med.stock with
    | none => simp
    | some s =>
      simp only []
      split
      · rw [List.countP_cons_of_neg]
        · simp
        · simp [refill_ne_take]
      · simp
  · intro hstock hfreq
    unfold generate_calendar
    simp only [List.filter, medSelected, List.mapM, List.mapM.loop]
    unfold medEvents
    rw [hg, hstock, hfreq]
    simp [rruleFor]

/-- C5 witness: one medication "X" scheduled 08:00 with frequency
"weekly", no stock, no appointments: exactly one weekly-Monday event. -/
theorem C5_witness :
    generate_calendar (fun _ => some "weekly") 8665200
      ⟨[⟨"X", "08:00:00", none⟩], []⟩ none
      = some [⟨"Take X", .atSec 8668800, some .weeklyMonday⟩] := by
  have h := (C5_recurrence (fun _ => some "weekly") 8665200 ⟨"X", "08:00:00", none⟩
    8668800 (by decide)).2.2.2.2 rfl rfl
  rw [h]
  rfl

/-- C6 counterexample: an appointment whose description is present but
blank is titled by the empty string, not by "Doctor Appointment", both
in the calendar event and in the Home-page entry. -/
theorem C6_counterexample :
    apptEvent ⟨"2024-01-05T10:00:00", some ""⟩
      = some ⟨"", .atDT ⟨2024, 1, 5, 10, 0, 0⟩, none⟩ ∧
    homeApptEntry ⟨"2024-01-05T10:00:00", some ""⟩
      = some (.atDT ⟨2024, 1, 5, 10, 0, 0⟩, "") ∧
    "" ≠ "Doctor Appointment" := ⟨rfl, rfl, by decide⟩

/-- C6 (amended): the appointment event and the Home-page entry are
titled "Doctor Appointment" exactly when the description key is absent;
a present description — blank included — is used verbatim. -/
theorem C6_description_default (appt : Appointment) (dt : PyDateTime)
    (h : Datetime.fromisoformat appt.date_time = some dt) :
    (appt.description = none →
      apptEvent appt = some ⟨"Doctor Appointment", .atDT dt, none⟩ ∧
      homeApptEntry appt = some (.atDT dt, "Doctor Appointment")) ∧
    (∀ d, appt.description = some d →
      apptEvent appt = some ⟨d, .atDT dt, none⟩ ∧
      homeApptEntry appt = some (.atDT dt, d)) := by
  unfold apptEvent homeApptEntry apptSummary
  rw [h]
  constructor
  · intro hd
    rw [hd]
    exact ⟨rfl, rfl⟩
  · intro d hd
    rw [hd]
    exact ⟨rfl, rfl⟩

/-- C6 witness: a record without the description key is titled with the
default; a record with a non-blank description keeps it. -/
theorem C6_witness :
    apptEvent ⟨"2024-01-05T10:00:00", none⟩
      = some ⟨"Doctor Appointment", .atDT ⟨2024, 1, 5, 10, 0, 0⟩, none⟩ ∧
    apptEvent ⟨"2024-01-05T10:00:00", some "Cardiology"⟩
      = some ⟨"Cardiology", .atDT ⟨2024, 1, 5, 10, 0, 0⟩, none⟩ := by
  constructor
  · exact ((C6_description_default ⟨"2024-01-05T10:00:00", none⟩
      ⟨2024, 1, 5, 10, 0, 0⟩ (by decide)).1 rfl).1
  · exact ((C6_description_default ⟨"2024-01-05T10:00:00", some "Cardiology"⟩
      ⟨2024, 1, 5, 10, 0, 0⟩ (by decide)).2 "Cardiology" rfl).1

/-- C7: `validate_appointment` fails with exactly the message
"Invalid date/time format" precisely when `date_time` does not parse as
an ISO-8601 date+time, and succeeds with an empty message otherwise;
the spec example on the record with date_time "invalid" fails. -/
theorem C7_validate_appointment (appt : Appointment) :
    (validate_appointment appt = (false, "Invalid date/time format")
      ↔ Datetime.fromisoformat appt.date_time = none) ∧
    (validate_appointment appt = (true, "")
      ↔ (Datetime.fromisoformat appt.date_time).isSome = true) ∧
    validate_appointment ⟨"invalid", some ""⟩
      = (false, "Invalid date/time format") := by
  refine ⟨?_, ?_, by decide⟩ <;>
    (unfold validate_appointment;
     cases h : Datetime.fromisoformat appt.date_time <;> simp [h])

/-- C8: `validate_medication` fails on a blank name with the name
message; with stock present it checks `current_quantity < 0`, then
`consumption_rate ≤ 0`, then `alert_threshold < 0`, returning the first
failing condition's message; otherwise it succeeds. -/
theorem C8_validate_medication (med : Medication) :
    (pyStrip med.name = "" →
      validate_medication med = (false, "Medication name cannot be empty")) ∧
    (pyStrip med.name ≠ "" → med.stock = none →
      validate_medication med = (true, "")) ∧
    (∀ s, pyStrip med.name ≠ "" → med.stock = some s →
      (s.current_quantity < 0 →
        validate_medication med = (false, "Current quantity cannot be negative")) ∧
      (0 ≤ s.current_quantity → s.consumption_rate ≤ 0 →
        validate_medication med = (false, "Consumption rate must be positive")) ∧
      (0 ≤ s.current_quantity → 0 < s.consumption_rate → s.alert_threshold < 0 →
        validate_medication med = (false, "Alert threshold cannot be negative")) ∧
      (0 ≤ s.current_quantity → 0 < s.consumption_rate → 0 ≤ s.alert_threshold →
        validate_medication med = (true, ""))) := by
  unfold validate_medication
  refine ⟨?_, ?_, ?_⟩
  · intro hname
    rw [if_pos hname]
  · intro hname hstock
    rw [if_neg hname, hstock]
  · intro s hname hstock
    rw [if_neg hname, hstock]
    refine ⟨?_, ?_, ?_, ?_⟩
    · intro h1
      simp only []
      rw [if_pos h1]
    · intro h1 h2
      simp only []
      rw [if_neg (by omega), if_pos h2]
    · intro h1 h2 h3
      simp only []
      rw [if_neg (by omega), if_neg (by omega), if_pos h3]
    · intro h1 h2 h3
      simp only []
      rw [if_neg (by omega), if_neg (by omega), if_neg (by omega)]

/-- C8 witness: the empty name fails with the name message, and the
spec example with consumption rate zero fails with the rate message. -/
theorem C8_witness :
    validate_medication ⟨"", "00:00:00", none⟩
      = (false, "Medication name cannot be empty") ∧
    validate_medication ⟨"A", "00:00:00", some ⟨10, 0, 5⟩⟩
      = (false, "Consumption rate must be positive") := by
  constructor
  · exact (C8_validate_medication ⟨"", "00:00:00", none⟩).1 (by decide)
  · exact ((C8_validate_medication ⟨"A", "00:00:00", some ⟨10, 0, 5⟩⟩).2.2
      ⟨10, 0, 5⟩ (by decide) rfl).2.1 (by decide) (by decide)



/-- C10: `validate_medication` never reads the schedule field — changing
the schedule never changes the verdict — so the validator accepts a
medication whose schedule does not parse in the strptime format, on
which `get_next_reminder` and hence calendar generation fail. -/
theorem C10_schedule_not_validated :
    (∀ (med : Medication) (s' : String),
      validate_medication { med with schedule := s' } = validate_medication med) ∧
    validate_medication ⟨"Aspirin", "not a time", none⟩ = (true, "") ∧
    parse_hms "not a time" = none ∧
    get_next_reminder ⟨"Aspirin", "not a time", none⟩ 0 = none ∧
    generate_calendar (fun _ => none) 0
      ⟨[⟨"Aspirin", "not a time", none⟩], []⟩ none = none := by
  refine ⟨?_, by decide, by decide, rfl, rfl⟩
  intro med s'
  rfl

/-- C2 counterexample: on malformed JSON contents, pa.py's `load_data`
does not return the empty document with a warning — it propagates
`json.JSONDecodeError`. -/
theorem C2_counterexample :
    Pa.load_data (some "not json") = Except.error "json.JSONDecodeError" ∧
    ∀ j, Pa.load_data (some "not json") ≠ Except.ok j := by
  refine ⟨rfl, ?_⟩
  intro j h
  rw [show Pa.load_data (some "not json")
    = Except.error "json.JSONDecodeError" from rfl] at h
  cases h

/-- C2 (amended): app.py's `load_data` returns the empty document with a
visible warning on a missing file and on malformed JSON, and — being a
total function into `Json × Bool` — never raises; pa.py's `load_data`
returns the empty document (with no warning) only on a missing file and
raises `json.JSONDecodeError` on malformed contents. -/
theorem C2_load_defaults :
    (App.load_data none = (emptyDoc, true)) ∧
    (∀ s, Json.loads s = none → App.load_data (some s) = (emptyDoc, true)) ∧
    (∀ s j, Json.loads s = some j → App.load_data (some s) = (j, false)) ∧
    (Pa.load_data none = Except.ok emptyDoc) ∧
    (∀ s, Json.loads s = none →
      Pa.load_data (some s) = Except.error "json.JSONDecodeError") := by
  refine ⟨rfl, ?_, ?_, rfl, ?_⟩
  · intro s h
    unfold App.load_data
    simp only []
    rw [h]
  · intro s j h
    unfold App.load_data
    simp only []
    rw [h]
  · intro s h
    unfold Pa.load_data
    simp only []
    rw [h]

/-- C2 witness: the missing file and a malformed file both yield the
empty document with a warning under app.py's loader, and the malformed
file errors under pa.py's. -/
theorem C2_witness :
    App.load_data none = (emptyDoc, true) ∧
    App.load_data (some "not json") = (emptyDoc, true) ∧
    Pa.load_data (some "not json") = Except.error "json.JSONDecodeError" := by
  refine ⟨C2_load_defaults.1, ?_, ?_⟩
  · exact C2_load_defaults.2.1 "not json" rfl
  · exact C2_load_defaults.2.2.2.2 "not json" rfl

/-- C9: saving any document and loading it back reproduces the document
exactly, with no warning, under both loaders. -/
theorem C9_save_load_roundtrip (doc : Json) :
    App.load_data (App.save_data doc) = (doc, false) ∧
    Pa.load_data (Pa.save_data doc) = Except.ok doc := by
  constructor
  · unfold App.save_data App.load_data
    simp only []
    rw [loads_dumps]
  · unfold Pa.save_data Pa.load_data
    simp only []
    rw [loads_dumps]

/-- C1: the import handler evaluated on a shape-valid upload. The
`st.stop()` on line 241 of src/app.py is outside the `if` of line 239,
so the run always stops after the shape check: a valid upload is parsed
(third conjunct) yet produces no error and is never applied or persisted
(first conjunct), while a shape-invalid upload is rejected with the
format error (second conjunct); nothing is ever applied (fourth). -/
theorem C1_import_unconditional_stop :
    importUpload "\x7b\"medications\": [], \"appointments\": []\x7d"
      = { errors := [], applied := none } ∧
    importUpload "\x7b\"medications\": []\x7d"
      = { errors := ["Invalid data format. Please upload a valid MediRemind JSON file."],
          applied := none } ∧
    (Json.loads "\x7b\"medications\": [], \"appointments\": []\x7d").isSome = true ∧
    (∀ upload, (importUpload upload).applied = none) := by
  refine ⟨rfl, rfl, rfl, ?_⟩
  intro upload
  unfold importUpload
  split
  · rfl
  · rfl

end MediRemind
